import Mathlib

/-!
Shallow embedding of the artifact-summarization core of the go-infra repository
(buildmodel/buildassets/buildassets.go) and proofs about it.

Go strings are modelled as lists of characters. The filesystem is modelled as a
function from paths to a file-read result (absent, readable content, or an
input/output failure). Directory listing is a separate input. Go map iteration
order is nondeterministic, so the flattening of the arch map is parameterized
by an iteration-order function, quantified over permutations in the theorems.

A Go panic (out-of-range index) is modelled as the distinguished outcome
`panicked`, separate from an ordinary error return.
-/

namespace GoInfra

/-- Go strings modelled as lists of characters. -/
abbrev Str := List Char

/-- Models strings.HasPrefix from the Go standard library. -/
def startsWith (s pre : Str) : Bool := pre.isPrefixOf s

/-- Models strings.HasSuffix from the Go standard library. -/
def hasSuffix (s suf : Str) : Bool := suf.isSuffixOf s

/-- Models strings.TrimSuffix from the Go standard library. -/
def trimSuffix (s suf : Str) : Str :=
  if hasSuffix s suf then s.take (s.length - suf.length) else s

/-- Models strings.TrimPrefix from the Go standard library. -/
def trimLeading (s pre : Str) : Str :=
  if startsWith s pre then s.drop pre.length else s

/-- Whitespace test used by strings.Fields (ASCII range of unicode.IsSpace). -/
def isSpaceChar (c : Char) : Bool :=
  c == ' ' || c == '\t' || c == '\n' || c == '\x0b' || c == '\x0c' || c == '\r'

/-- Accumulator-based splitter behind `fields`; `cur` is the current token
reversed. -/
def fieldsAux : Str → Str → List Str
  | cur, [] => if cur.isEmpty then [] else [cur.reverse]
  | cur, c :: rest =>
    if isSpaceChar c then
      if cur.isEmpty then fieldsAux [] rest else cur.reverse :: fieldsAux [] rest
    else fieldsAux (c :: cur) rest

/-- Models strings.Fields: the whitespace-delimited tokens of a string. -/
def fields (s : Str) : List Str := fieldsAux [] s

/-- Models strings.Split with separator "-". Always returns at least one part. -/
def splitDash : Str → List Str
  | [] => [[]]
  | c :: rest =>
    if c = '-' then [] :: splitDash rest
    else
      match splitDash rest with
      | [] => [[c]]
      | t :: ts => (c :: t) :: ts

/-- Models the Go slice expression s[strings.LastIndex(s, ".")+1:]: the part of
the string after the last dot, or the whole string when no dot occurs. -/
def afterLastDot (s : Str) : Str := (s.reverse.takeWhile (fun c => c != '.')).reverse

/-- Models path.Join for two already-clean components. -/
def pathJoin (a b : Str) : Str := if a = [] then b else a ++ '/' :: b

/-- Result of reading one file path: absent, readable content, or an
input/output failure. -/
inductive FileResult where
  | notExist
  | content (data : Str)
  | ioErr
deriving DecidableEq

/-- The filesystem visible to one summarization call. -/
abbrev FS := Str → FileResult

/-- Errors returned (as Go error values) by the summarization. -/
inductive SummaryError where
  | markerUnreadable (path : Str)
  | dirUnreadable (path : Str)
  | checksumUnreadable (path : Str)
deriving DecidableEq

/-- The first line of file data as bufio.Scanner yields it: up to the first
newline, with a trailing carriage return stripped; empty data gives the empty
string. -/
def firstLine (data : Str) : Str :=
  trimSuffix (data.takeWhile (fun c => c != '\n')) ['\r']

/-- Models getVersion from buildassets.go: read the first line of the file at
`path`, defaulting when the file does not exist, and failing on any other read
failure. -/
def getVersion (fs : FS) (path : Str) (defaultVersion : Str) : Except SummaryError Str :=
  match fs path with
  | .notExist => .ok defaultVersion
  | .ioErr => .error (.markerUnreadable path)
  | .content data => .ok (firstLine data)

/-- Modelled from the spec: the env part of dockerversions.Arch (the
dockerversions package is not under src); fields GOOS and GOARCH per spec
section 6. -/
structure ArchEnv where
  goos : Str
  goarch : Str
deriving DecidableEq

/-- Modelled from the spec: dockerversions.Arch (the dockerversions package is
not under src); fields url, sha256 and env per spec section 6. -/
structure Arch where
  url : Str
  sha256 : Str
  env : ArchEnv
deriving DecidableEq

/-- The zero value of Arch, as created by getOrCreateArch. -/
def archZero : Arch := ⟨[], [], ⟨[], []⟩⟩

/-- Models the BuildResultsDirectoryInfo struct. -/
structure BuildResultsDirectoryInfo where
  sourceDir : Str
  artifactsDir : Str
  destinationURL : Str
  branch : Str
  buildID : Str

/-- The path of the version marker file read by createSummary. -/
def versionPath (b : BuildResultsDirectoryInfo) : Str := pathJoin b.sourceDir "VERSION".data

/-- The path of the revision marker file read by createSummary. -/
def revisionPath (b : BuildResultsDirectoryInfo) : Str :=
  pathJoin b.sourceDir "MICROSOFT_REVISION".data

/-- Models the BuildAssets struct. -/
structure BuildAssets where
  branch : Str
  buildID : Str
  version : Str
  arches : List Arch
deriving DecidableEq

/-- Models GetDockerRepoTargetBranch from buildassets.go. -/
def getDockerRepoTargetBranch (branch : Str) : Str :=
  if branch == "main".data || startsWith branch "release-branch.".data then
    "microsoft/main".data
  else if startsWith branch "dev/official/".data then branch
  else []

/-- Models the archiveSuffixes variable, in its fixed priority order. -/
def archiveSuffixes : List Str := [".tar.gz".data, ".zip".data]

/-- Models the checksumSuffix variable. -/
def checksumSuffix : Str := ".sha256".data

/-- One entry of a directory listing: its name and whether it is a
subdirectory. -/
structure DirEntry where
  name : Str
  isDir : Bool
deriving DecidableEq

/-- Result of os.ReadDir on the artifacts directory. -/
inductive DirResult where
  | listErr
  | entries (es : List DirEntry)

/-- An error arising while scanning entries: either an ordinary hard error or a
Go panic from an out-of-range index. -/
inductive ProcErr where
  | hard (e : SummaryError)
  | panicked
deriving DecidableEq

/-- Models getOrCreateArch followed by an in-place mutation: look up `key`,
apply `f` to the existing entry, or register `f` of the zero value. The map is
kept as an association list in insertion order; iteration-order
nondeterminism is applied later. -/
def updateArch (m : List (Str × Arch)) (key : Str) (f : Arch → Arch) : List (Str × Arch) :=
  match m with
  | [] => [(key, f archZero)]
  | (k, a) :: rest => if k = key then (k, f a) :: rest else (k, a) :: updateArch rest key f

/-- Models one iteration of the entry loop in CreateSummary: skip directories,
process checksum files (reading their first whitespace token; an empty token
list is the panic at index 0), then archive files (the first matching suffix
wins; fewer than two dash-separated parts is the panic at index 1). -/
def processEntry (b : BuildResultsDirectoryInfo) (fs : FS) (m : List (Str × Arch))
    (e : DirEntry) : Except ProcErr (List (Str × Arch)) :=
  if e.isDir then .ok m
  else if hasSuffix e.name checksumSuffix then
    match fs (pathJoin b.artifactsDir e.name) with
    | .content data =>
      match fields data with
      | tok :: _ => .ok (updateArch m (trimSuffix e.name checksumSuffix)
          (fun a => { a with sha256 := tok }))
      | [] => .error .panicked
    | _ => .error (.hard (.checksumUnreadable (pathJoin b.artifactsDir e.name)))
  else
    match archiveSuffixes.find? (fun suf => hasSuffix e.name suf) with
    | some suf =>
      match splitDash (afterLastDot (trimSuffix e.name suf)) with
      | goOS :: goArch :: _ =>
        .ok (updateArch m e.name (fun a =>
          { a with url := b.destinationURL ++ '/' :: e.name, env := ⟨goOS, goArch⟩ }))
      | _ => .error .panicked
    | none => .ok m

/-- The entry loop of CreateSummary folded over a listing. -/
def processEntries (b : BuildResultsDirectoryInfo) (fs : FS) :
    List (Str × Arch) → List DirEntry → Except ProcErr (List (Str × Arch))
  | m, [] => .ok m
  | m, e :: rest =>
    match processEntry b fs m e with
    | .ok m2 => processEntries b fs m2 rest
    | .error err => .error err

/-- The artifact-scanning phase of CreateSummary: skipped entirely when the
artifacts directory path is empty, aborting when the listing fails. -/
def collectArches (b : BuildResultsDirectoryInfo) (fs : FS) (dir : DirResult) :
    Except ProcErr (List (Str × Arch)) :=
  if b.artifactsDir = [] then .ok []
  else
    match dir with
    | .listErr => .error (.hard (.dirUnreadable b.artifactsDir))
    | .entries es => processEntries b fs [] es

/-- Byte-lexicographic strict comparison of strings, as the Go operator
written with the left angle bracket on strings. -/
def lexLtB : Str → Str → Bool
  | [], [] => false
  | [], _ :: _ => true
  | _ :: _, [] => false
  | a :: s, b :: t => if a < b then true else if b < a then false else lexLtB s t

/-- The ordering used on arch entries by the final sort: entry x may precede
entry y exactly when the url of y is not strictly below the url of x. -/
def urlLeB (x y : Arch) : Bool := !(lexLtB y.url x.url)

/-- Insert an arch entry into a sorted list of arch entries. -/
def insertArch (x : Arch) : List Arch → List Arch
  | [] => [x]
  | y :: rest => if urlLeB x y then x :: y :: rest else y :: insertArch x rest

/-- Models the sort.Slice call on arch entries ordered by url: some
permutation sorted by url. Insertion sort is used as the concrete sorted
rearrangement. -/
def sortArches : List Arch → List Arch
  | [] => []
  | x :: rest => insertArch x (sortArches rest)

/-- Outcome of one CreateSummary call: an ordinary Go return of the manifest
pointer and error value, or a panic. -/
inductive SummaryOutcome where
  | ret (assets : Option BuildAssets) (err : Option SummaryError)
  | panicked
deriving DecidableEq

/-- Models CreateSummary from buildassets.go. `iter` is the iteration order of
the Go map rearranging the accumulated association list before flattening;
theorems quantify it over permutations. -/
def createSummary (b : BuildResultsDirectoryInfo) (fs : FS) (dir : DirResult)
    (iter : List (Str × Arch) → List (Str × Arch)) : SummaryOutcome :=
  match getVersion fs (versionPath b) "main".data with
  | .error e => .ret none (some e)
  | .ok goVersionRaw =>
    match getVersion fs (revisionPath b) "1".data with
    | .error e => .ret none (some e)
    | .ok goRevision =>
      match collectArches b fs dir with
      | .error .panicked => .panicked
      | .error (.hard e) => .ret none (some e)
      | .ok archMap =>
        .ret (some
          { branch := b.branch
            buildID := b.buildID
            version := trimLeading goVersionRaw "go".data ++ '-' :: goRevision
            arches := sortArches ((iter archMap).map Prod.snd) }) none

/-- Whether one file-read result counts as an input/output failure. -/
def isIoErr : FileResult → Bool
  | .ioErr => true
  | _ => false

/-- Whether one file-read result counts as unreadable for os.ReadFile (absent
or failing). -/
def unreadable : FileResult → Bool
  | .content _ => false
  | _ => true

/-- A listing entry that is a checksum file whose content cannot be read. -/
def badChecksumEntry (b : BuildResultsDirectoryInfo) (fs : FS) (e : DirEntry) : Bool :=
  !e.isDir && hasSuffix e.name checksumSuffix &&
    unreadable (fs (pathJoin b.artifactsDir e.name))

/-- The hard-error conditions of the error taxonomy: a marker file failing for
a reason other than absence, an unlistable artifacts directory, or an
unreadable checksum file in the listing. -/
def hardErrorB (b : BuildResultsDirectoryInfo) (fs : FS) (dir : DirResult) : Bool :=
  isIoErr (fs (versionPath b)) ||
  isIoErr (fs (revisionPath b)) ||
  (!b.artifactsDir.isEmpty &&
    match dir with
    | .listErr => true
    | .entries es => es.any (badChecksumEntry b fs))

theorem hasSuffix_append (a suf : Str) : hasSuffix (a ++ suf) suf = true := by
  simp [hasSuffix, List.isSuffixOf_iff_suffix]

theorem trimSuffix_append (a suf : Str) : trimSuffix (a ++ suf) suf = a := by
  simp [trimSuffix, hasSuffix_append, List.length_append, Nat.add_sub_cancel, List.take_left]

theorem lexLtB_asymm : ∀ (a b : Str), lexLtB a b = true → lexLtB b a = false := by
  intro a
  induction a with
  | nil =>
    intro b h
    cases b with
    | nil => simp [lexLtB] at h
    | cons y t => simp [lexLtB]
  | cons x s ih =>
    intro b h
    cases b with
    | nil => simp [lexLtB] at h
    | cons y t =>
      simp only [lexLtB] at h ⊢
      rcases lt_trichotomy x y with hlt | heq | hgt
      · simp [hlt, lt_asymm hlt]
      · subst heq
        simp [lt_irrefl] at h ⊢
        exact ih t h
      · simp [hgt, lt_asymm hgt] at h

theorem lexLtB_conn : ∀ (a b : Str), lexLtB a b = false → lexLtB b a = false → a = b := by
  intro a
  induction a with
  | nil =>
    intro b h1 h2
    cases b with
    | nil => rfl
    | cons y t => simp [lexLtB] at h1
  | cons x s ih =>
    intro b h1 h2
    cases b with
    | nil => simp [lexLtB] at h2
    | cons y t =>
      simp only [lexLtB] at h1 h2
      rcases lt_trichotomy x y with hlt | heq | hgt
      · simp [hlt] at h1
      · subst heq
        simp [lt_irrefl] at h1 h2
        rw [ih t h1 h2]
      · simp [hgt, lt_asymm hgt] at h2

theorem lexLtB_trans : ∀ (a b c : Str), lexLtB a b = true → lexLtB b c = true →
    lexLtB a c = true := by
  intro a
  induction a with
  | nil =>
    intro b c h1 h2
    cases b with
    | nil => simp [lexLtB] at h1
    | cons y t =>
      cases c with
      | nil => simp [lexLtB] at h2
      | cons z u => simp [lexLtB]
  | cons x s ih =>
    intro b c h1 h2
    cases b with
    | nil => simp [lexLtB] at h1
    | cons y t =>
      cases c with
      | nil => simp [lexLtB] at h2
      | cons z u =>
        simp only [lexLtB] at h1 h2 ⊢
        rcases lt_trichotomy x y with hxy | hxy | hxy
        · rcases lt_trichotomy y z with hyz | hyz | hyz
          · simp [lt_trans hxy hyz]
          · subst hyz; simp [hxy]
          · simp [hyz, lt_asymm hyz] at h2
        · subst hxy
          rcases lt_trichotomy x z with hyz | hyz | hyz
          · simp [hyz]
          · subst hyz
            simp [lt_irrefl] at h1 h2 ⊢
            exact ih t u h1 h2
          · simp [hyz, lt_asymm hyz] at h2
        · simp [hxy, lt_asymm hxy] at h1

theorem lexLtB_false_trans {a b c : Str} (h1 : lexLtB a b = false) (h2 : lexLtB b c = false) :
    lexLtB a c = false := by
  cases hac : lexLtB a c with
  | false => rfl
  | true =>
    cases hba : lexLtB b a with
    | true =>
      have hbc := lexLtB_trans b a c hba hac
      rw [h2] at hbc
      simp at hbc
    | false =>
      have heq := lexLtB_conn a b h1 hba
      rw [heq] at hac
      rw [h2] at hac
      simp at hac

theorem lexLtB_nil_left {s : Str} (h : lexLtB [] s = false) : s = [] := by
  cases s with
  | nil => rfl
  | cons c t => simp [lexLtB] at h

theorem urlLeB_of_not {x y : Arch} (h : urlLeB x y = false) : urlLeB y x = true := by
  unfold urlLeB at h ⊢
  cases hl : lexLtB y.url x.url with
  | false => rw [hl] at h; simp at h
  | true => simp [lexLtB_asymm y.url x.url hl]

theorem urlLeB_trans {x y z : Arch} (h1 : urlLeB x y = true) (h2 : urlLeB y z = true) :
    urlLeB x z = true := by
  unfold urlLeB at h1 h2 ⊢
  simp only [Bool.not_eq_true'] at h1 h2 ⊢
  exact lexLtB_false_trans h2 h1

theorem insertArch_perm (x : Arch) : ∀ (l : List Arch), (insertArch x l).Perm (x :: l) := by
  intro l
  induction l with
  | nil => simp [insertArch]
  | cons y rest ih =>
    simp only [insertArch]
    by_cases h : urlLeB x y = true
    · simp [h]
    · simp only [h, Bool.false_eq_true, if_false]
      exact (ih.cons y).trans (List.Perm.swap x y rest)

theorem sortArches_perm : ∀ (l : List Arch), (sortArches l).Perm l := by
  intro l
  induction l with
  | nil => simp [sortArches]
  | cons x rest ih =>
    simp only [sortArches]
    exact (insertArch_perm x (sortArches rest)).trans (ih.cons x)

theorem mem_insertArch {x z : Arch} {l : List Arch} (h : z ∈ insertArch x l) :
    z = x ∨ z ∈ l := by
  have := (insertArch_perm x l).mem_iff.mp h
  exact List.mem_cons.mp this

theorem pairwise_insertArch {x : Arch} : ∀ {l : List Arch},
    l.Pairwise (fun a b => urlLeB a b = true) →
    (insertArch x l).Pairwise (fun a b => urlLeB a b = true) := by
  intro l
  induction l with
  | nil => intro _; simp [insertArch]
  | cons y rest ih =>
    intro h
    rw [List.pairwise_cons] at h
    obtain ⟨hy, hrest⟩ := h
    simp only [insertArch]
    by_cases hxy : urlLeB x y = true
    · simp only [hxy, if_true]
      rw [List.pairwise_cons]
      constructor
      · intro z hz
        cases List.mem_cons.mp hz with
        | inl hzy => rw [hzy]; exact hxy
        | inr hzr => exact urlLeB_trans hxy (hy z hzr)
      · rw [List.pairwise_cons]
        exact ⟨hy, hrest⟩
    · simp only [hxy, Bool.false_eq_true, if_false]
      rw [List.pairwise_cons]
      constructor
      · intro z hz
        cases mem_insertArch hz with
        | inl hzx =>
          rw [hzx]
          exact urlLeB_of_not (Bool.not_eq_true _ ▸ hxy : urlLeB x y = false)
        | inr hzr => exact hy z hzr
      · exact ih hrest

theorem sortArches_sorted : ∀ (l : List Arch),
    (sortArches l).Pairwise (fun a b => urlLeB a b = true) := by
  intro l
  induction l with
  | nil => simp [sortArches]
  | cons x rest ih =>
    simp only [sortArches]
    exact pairwise_insertArch ih

theorem sorted_distinct_unique : ∀ (l1 l2 : List Arch), l1.Perm l2 →
    l1.Pairwise (fun a b => urlLeB a b = true) →
    l2.Pairwise (fun a b => urlLeB a b = true) →
    l1.Pairwise (fun a b => a.url ≠ b.url) → l1 = l2 := by
  intro l1
  induction l1 with
  | nil =>
    intro l2 hp _ _ _
    exact (hp.symm.eq_nil).symm
  | cons x t1 ih =>
    intro l2 hp hs1 hs2 hd
    cases l2 with
    | nil => exact absurd hp.eq_nil (by simp)
    | cons y t2 =>
      have hxy : x = y := by
        by_contra hne
        have hxmem : x ∈ y :: t2 := hp.mem_iff.mp (List.mem_cons_self x t1)
        have hymem : y ∈ x :: t1 := hp.mem_iff.mpr (List.mem_cons_self y t2)
        have hx2 : x ∈ t2 := by
          cases List.mem_cons.mp hxmem with
          | inl h => exact absurd h hne
          | inr h => exact h
        have hy1 : y ∈ t1 := by
          cases List.mem_cons.mp hymem with
          | inl h => exact absurd h.symm hne
          | inr h => exact h
        have h1 : urlLeB x y = true := (List.pairwise_cons.mp hs1).1 y hy1
        have h2 : urlLeB y x = true := (List.pairwise_cons.mp hs2).1 x hx2
        have hurl : x.url = y.url := by
          unfold urlLeB at h1 h2
          simp only [Bool.not_eq_true'] at h1 h2
          exact lexLtB_conn x.url y.url h2 h1
        exact (List.pairwise_cons.mp hd).1 y hy1 hurl
      subst hxy
      have ht : t1.Perm t2 := (List.perm_cons x).mp hp
      have := ih t2 ht (List.pairwise_cons.mp hs1).2 (List.pairwise_cons.mp hs2).2
        (List.pairwise_cons.mp hd).2
      rw [this]

theorem getVersion_error_ioErr {fs : FS} {p d : Str} {e : SummaryError}
    (h : getVersion fs p d = .error e) : fs p = .ioErr := by
  unfold getVersion at h
  cases hp : fs p with
  | notExist => rw [hp] at h; simp at h
  | ioErr => rfl
  | content data => rw [hp] at h; simp at h

theorem getVersion_ok_notIoErr {fs : FS} {p d v : Str}
    (h : getVersion fs p d = .ok v) : isIoErr (fs p) = false := by
  unfold getVersion at h
  cases hp : fs p with
  | notExist => simp [isIoErr]
  | ioErr => rw [hp] at h; simp at h
  | content data => simp [isIoErr]

theorem createSummary_ok_iff (b : BuildResultsDirectoryInfo) (fs : FS) (dir : DirResult)
    (iter : List (Str × Arch) → List (Str × Arch)) (m : BuildAssets) :
    createSummary b fs dir iter = .ret (some m) none ↔
      ∃ v r mp, getVersion fs (versionPath b) "main".data = .ok v ∧
        getVersion fs (revisionPath b) "1".data = .ok r ∧
        collectArches b fs dir = .ok mp ∧
        m = ⟨b.branch, b.buildID, trimLeading v "go".data ++ '-' :: r,
             sortArches ((iter mp).map Prod.snd)⟩ := by
  unfold createSummary
  cases hv : getVersion fs (versionPath b) "main".data with
  | error e =>
    constructor
    · intro h
      simp at h
    · rintro ⟨v2, r2, mp2, hv2, hr2, hc2, hm2⟩
      simp at hv2
  | ok v =>
    cases hr : getVersion fs (revisionPath b) "1".data with
    | error e =>
      constructor
      · intro h
        simp at h
      · rintro ⟨v2, r2, mp2, hv2, hr2, hc2, hm2⟩
        simp at hr2
    | ok r =>
      cases hc : collectArches b fs dir with
      | error pe =>
        cases pe with
        | hard e =>
          constructor
          · intro h
            simp at h
          · rintro ⟨v2, r2, mp2, hv2, hr2, hc2, hm2⟩
            simp at hc2
        | panicked =>
          constructor
          · intro h
            simp at h
          · rintro ⟨v2, r2, mp2, hv2, hr2, hc2, hm2⟩
            simp at hc2
      | ok mp =>
        simp only [SummaryOutcome.ret.injEq, Option.some.injEq, and_true, Except.ok.injEq]
        constructor
        · intro h
          exact ⟨v, r, mp, rfl, rfl, rfl, h.symm⟩
        · rintro ⟨v2, r2, mp2, hv2, hr2, hc2, hm2⟩
          subst hv2
          subst hr2
          cases hc2
          exact hm2.symm

theorem createSummary_shape (b : BuildResultsDirectoryInfo) (fs : FS) (dir : DirResult)
    (iter : List (Str × Arch) → List (Str × Arch)) :
    createSummary b fs dir iter = .panicked ∨
    (∃ e, createSummary b fs dir iter = .ret none (some e)) ∨
    (∃ m, createSummary b fs dir iter = .ret (some m) none) := by
  unfold createSummary
  cases getVersion fs (versionPath b) "main".data with
  | error e => right; left; exact ⟨e, rfl⟩
  | ok v =>
    cases getVersion fs (revisionPath b) "1".data with
    | error e => right; left; exact ⟨e, rfl⟩
    | ok r =>
      cases collectArches b fs dir with
      | error pe =>
        cases pe with
        | hard e => right; left; exact ⟨e, rfl⟩
        | panicked => left; rfl
      | ok mp => right; right; exact ⟨_, rfl⟩

theorem processEntry_ok_not_bad {b : BuildResultsDirectoryInfo} {fs : FS}
    {m m2 : List (Str × Arch)} {e : DirEntry}
    (h : processEntry b fs m e = .ok m2) : badChecksumEntry b fs e = false := by
  cases hd : e.isDir with
  | true => simp [badChecksumEntry, hd]
  | false =>
    cases hck : hasSuffix e.name checksumSuffix with
    | false => simp [badChecksumEntry, hd, hck]
    | true =>
      cases hfs : fs (pathJoin b.artifactsDir e.name) with
      | content data => simp [badChecksumEntry, hd, hck, hfs, unreadable]
      | notExist => simp [processEntry, hd, hck, hfs] at h
      | ioErr => simp [processEntry, hd, hck, hfs] at h

theorem processEntry_hard_bad {b : BuildResultsDirectoryInfo} {fs : FS}
    {m : List (Str × Arch)} {e : DirEntry} {e0 : SummaryError}
    (h : processEntry b fs m e = .error (.hard e0)) : badChecksumEntry b fs e = true := by
  cases hd : e.isDir with
  | true => simp [processEntry, hd] at h
  | false =>
    cases hck : hasSuffix e.name checksumSuffix with
    | true =>
      cases hfs : fs (pathJoin b.artifactsDir e.name) with
      | content data =>
        cases hfld : fields data with
        | nil => simp [processEntry, hd, hck, hfs, hfld] at h
        | cons tok rest => simp [processEntry, hd, hck, hfs, hfld] at h
      | notExist => simp [badChecksumEntry, hd, hck, hfs, unreadable]
      | ioErr => simp [badChecksumEntry, hd, hck, hfs, unreadable]
    | false =>
      cases hfind : archiveSuffixes.find? (fun suf => hasSuffix e.name suf) with
      | none => simp [processEntry, hd, hck, hfind] at h
      | some suf =>
        cases hsp : splitDash (afterLastDot (trimSuffix e.name suf)) with
        | nil => simp [processEntry, hd, hck, hfind, hsp] at h
        | cons goOS rest =>
          cases rest with
          | nil => simp [processEntry, hd, hck, hfind, hsp] at h
          | cons goArch rest2 => simp [processEntry, hd, hck, hfind, hsp] at h

theorem processEntry_not_bad {b : BuildResultsDirectoryInfo} {fs : FS}
    {m : List (Str × Arch)} {e : DirEntry}
    (h : badChecksumEntry b fs e = false) :
    (∃ m2, processEntry b fs m e = .ok m2) ∨ processEntry b fs m e = .error .panicked := by
  cases hd : e.isDir with
  | true => left; exact ⟨m, by simp [processEntry, hd]⟩
  | false =>
    cases hck : hasSuffix e.name checksumSuffix with
    | true =>
      cases hfs : fs (pathJoin b.artifactsDir e.name) with
      | content data =>
        cases hfld : fields data with
        | nil => right; simp [processEntry, hd, hck, hfs, hfld]
        | cons tok rest =>
          left
          exact ⟨updateArch m (trimSuffix e.name checksumSuffix) (fun a => { a with sha256 := tok }),
            by simp [processEntry, hd, hck, hfs, hfld]⟩
      | notExist => simp [badChecksumEntry, hd, hck, hfs, unreadable] at h
      | ioErr => simp [badChecksumEntry, hd, hck, hfs, unreadable] at h
    | false =>
      cases hfind : archiveSuffixes.find? (fun suf => hasSuffix e.name suf) with
      | none => left; exact ⟨m, by simp [processEntry, hd, hck, hfind]⟩
      | some suf =>
        cases hsp : splitDash (afterLastDot (trimSuffix e.name suf)) with
        | nil => right; simp [processEntry, hd, hck, hfind, hsp]
        | cons goOS rest =>
          cases rest with
          | nil => right; simp [processEntry, hd, hck, hfind, hsp]
          | cons goArch rest2 =>
            left
            exact ⟨updateArch m e.name (fun a =>
              { a with url := b.destinationURL ++ '/' :: e.name, env := ⟨goOS, goArch⟩ }),
              by simp [processEntry, hd, hck, hfind, hsp]⟩


theorem processEntries_ok_not_bad {b : BuildResultsDirectoryInfo} {fs : FS} :
    ∀ {es : List DirEntry} {m m2 : List (Str × Arch)},
    processEntries b fs m es = .ok m2 → ∀ e ∈ es, badChecksumEntry b fs e = false := by
  intro es
  induction es with
  | nil => intro m m2 h e he; simp at he
  | cons e0 rest ih =>
    intro m m2 h e he
    unfold processEntries at h
    cases hp : processEntry b fs m e0 with
    | error err => rw [hp] at h; simp at h
    | ok m1 =>
      rw [hp] at h
      simp only [] at h
      cases List.mem_cons.mp he with
      | inl h0 => subst h0; exact processEntry_ok_not_bad hp
      | inr h1 => exact ih h e h1

theorem processEntries_hard_bad {b : BuildResultsDirectoryInfo} {fs : FS} :
    ∀ {es : List DirEntry} {m : List (Str × Arch)} {e0 : SummaryError},
    processEntries b fs m es = .error (.hard e0) →
    es.any (badChecksumEntry b fs) = true := by
  intro es
  induction es with
  | nil => intro m e0 h; simp [processEntries] at h
  | cons e1 rest ih =>
    intro m e0 h
    unfold processEntries at h
    cases hp : processEntry b fs m e1 with
    | error err =>
      rw [hp] at h
      simp only [] at h
      cases err with
      | hard eh =>
        simp [List.any_cons, processEntry_hard_bad hp]
      | panicked => simp at h
    | ok m1 =>
      rw [hp] at h
      simp only [] at h
      simp [List.any_cons, ih h]

theorem processEntries_not_bad {b : BuildResultsDirectoryInfo} {fs : FS} :
    ∀ (es : List DirEntry) (m : List (Str × Arch)),
    (∀ e ∈ es, badChecksumEntry b fs e = false) →
    (∃ m2, processEntries b fs m es = .ok m2) ∨
      processEntries b fs m es = .error .panicked := by
  intro es
  induction es with
  | nil => intro m _; left; exact ⟨m, rfl⟩
  | cons e1 rest ih =>
    intro m hall
    unfold processEntries
    cases processEntry_not_bad (m := m) (hall e1 (List.mem_cons_self e1 rest)) with
    | inl hok =>
      obtain ⟨m1, hm1⟩ := hok
      rw [hm1]
      exact ih m1 (fun e he => hall e (List.mem_cons_of_mem e1 he))
    | inr hpanic =>
      rw [hpanic]
      right
      rfl

theorem urlLeB_eq_true_iff {x y : Arch} : urlLeB x y = true ↔ lexLtB y.url x.url = false := by
  unfold urlLeB
  cases lexLtB y.url x.url <;> simp

theorem startsWith_cons {br : Str} {c : Char} {t : Str} (h : startsWith br (c :: t) = true) :
    ∃ u, br = c :: u := by
  unfold startsWith at h
  rw [List.isPrefixOf_iff_prefix] at h
  obtain ⟨u, hu⟩ := h
  exact ⟨t ++ u, by rw [← hu]; rfl⟩

/-- C4: the identity key computed for a checksum file (its filename with the
checksum suffix stripped) equals the identity key computed for the
corresponding archive file (its full filename); in a directory listing holding
exactly the archive named N and the checksum named N plus the checksum suffix,
both processing orders converge to the same single fully merged arch entry
carrying url, sha256 and the platform pair. -/
theorem C4_identity_key_merge (b : BuildResultsDirectoryInfo) (fs : FS)
    (N data tok goOS goArch suf : Str) (restFields restParts : List Str)
    (hsuf : archiveSuffixes.find? (fun s => hasSuffix N s) = some suf)
    (hnotCk : hasSuffix N checksumSuffix = false)
    (hfs : fs (pathJoin b.artifactsDir (N ++ checksumSuffix)) = .content data)
    (hfields : fields data = tok :: restFields)
    (hsplit : splitDash (afterLastDot (trimSuffix N suf)) = goOS :: goArch :: restParts) :
    trimSuffix (N ++ checksumSuffix) checksumSuffix = N ∧
    processEntries b fs [] [⟨N, false⟩, ⟨N ++ checksumSuffix, false⟩] =
      .ok [(N, ⟨b.destinationURL ++ '/' :: N, tok, ⟨goOS, goArch⟩⟩)] ∧
    processEntries b fs [] [⟨N ++ checksumSuffix, false⟩, ⟨N, false⟩] =
      .ok [(N, ⟨b.destinationURL ++ '/' :: N, tok, ⟨goOS, goArch⟩⟩)] := by
  have hkey : trimSuffix (N ++ checksumSuffix) checksumSuffix = N :=
    trimSuffix_append N checksumSuffix
  have hcksuf : hasSuffix (N ++ checksumSuffix) checksumSuffix = true :=
    hasSuffix_append N checksumSuffix
  refine ⟨hkey, ?_, ?_⟩
  · have s1 : processEntry b fs [] ⟨N, false⟩ =
        .ok [(N, ⟨b.destinationURL ++ '/' :: N, [], ⟨goOS, goArch⟩⟩)] := by
      simp [processEntry, hnotCk, hsuf, hsplit, updateArch, archZero]
    have s2 : processEntry b fs [(N, ⟨b.destinationURL ++ '/' :: N, [], ⟨goOS, goArch⟩⟩)]
        ⟨N ++ checksumSuffix, false⟩ =
        .ok [(N, ⟨b.destinationURL ++ '/' :: N, tok, ⟨goOS, goArch⟩⟩)] := by
      simp [processEntry, hcksuf, hfs, hfields, hkey, updateArch]
    simp [processEntries, s1, s2]
  · have s1 : processEntry b fs [] ⟨N ++ checksumSuffix, false⟩ =
        .ok [(N, ⟨[], tok, ⟨[], []⟩⟩)] := by
      simp [processEntry, hcksuf, hfs, hfields, hkey, updateArch, archZero]
    have s2 : processEntry b fs [(N, ⟨[], tok, ⟨[], []⟩⟩)] ⟨N, false⟩ =
        .ok [(N, ⟨b.destinationURL ++ '/' :: N, tok, ⟨goOS, goArch⟩⟩)] := by
      simp [processEntry, hnotCk, hsuf, hsplit, updateArch]
    simp [processEntries, s1, s2]

/-- C5: version resolution: with both marker files absent the composed version
of any returned manifest is main-1; with a version marker reading go1.21.0 and
a revision marker reading 3 the composed version is 1.21.0-3 (the leading go
is stripped and version and revision are joined with a dash). -/
theorem C5_version_resolution :
    (∀ (b : BuildResultsDirectoryInfo) (fs : FS) (dir : DirResult)
      (iter : List (Str × Arch) → List (Str × Arch)) (m : BuildAssets),
      fs (versionPath b) = .notExist → fs (revisionPath b) = .notExist →
      createSummary b fs dir iter = .ret (some m) none → m.version = "main-1".data) ∧
    (∀ (b : BuildResultsDirectoryInfo) (fs : FS) (dir : DirResult)
      (iter : List (Str × Arch) → List (Str × Arch)) (m : BuildAssets),
      fs (versionPath b) = .content "go1.21.0".data →
      fs (revisionPath b) = .content "3".data →
      createSummary b fs dir iter = .ret (some m) none → m.version = "1.21.0-3".data) := by
  constructor
  · intro b fs dir iter m hv hr hres
    obtain ⟨v, r, mp, hgv, hgr, hc, hm⟩ := (createSummary_ok_iff b fs dir iter m).mp hres
    have hv2 : v = "main".data := by
      unfold getVersion at hgv
      rw [hv] at hgv
      simp at hgv
      exact hgv.symm
    have hr2 : r = "1".data := by
      unfold getVersion at hgr
      rw [hr] at hgr
      simp at hgr
      exact hgr.symm
    subst hv2
    subst hr2
    rw [hm]
    show trimLeading "main".data "go".data ++ '-' :: "1".data = "main-1".data
    decide
  · intro b fs dir iter m hv hr hres
    obtain ⟨v, r, mp, hgv, hgr, hc, hm⟩ := (createSummary_ok_iff b fs dir iter m).mp hres
    have hv2 : v = firstLine "go1.21.0".data := by
      unfold getVersion at hgv
      rw [hv] at hgv
      simp at hgv
      exact hgv.symm
    have hr2 : r = firstLine "3".data := by
      unfold getVersion at hgr
      rw [hr] at hgr
      simp at hgr
      exact hgr.symm
    subst hv2
    subst hr2
    rw [hm]
    show trimLeading (firstLine "go1.21.0".data) "go".data ++ '-' :: firstLine "3".data =
      "1.21.0-3".data
    decide

/-- C6: the branch mapper is pure and total and maps main and every branch
prefixed release-branch. to microsoft/main, keeps every branch prefixed
dev/official/ unchanged, and maps every other branch to the empty string. -/
theorem C6_branch_mapper :
    getDockerRepoTargetBranch "main".data = "microsoft/main".data ∧
    (∀ br : Str, startsWith br "release-branch.".data = true →
      getDockerRepoTargetBranch br = "microsoft/main".data) ∧
    (∀ br : Str, startsWith br "dev/official/".data = true →
      getDockerRepoTargetBranch br = br) ∧
    (∀ br : Str, br ≠ "main".data → startsWith br "release-branch.".data = false →
      startsWith br "dev/official/".data = false →
      getDockerRepoTargetBranch br = []) := by
  refine ⟨by decide, ?_, ?_, ?_⟩
  · intro br h
    unfold getDockerRepoTargetBranch
    rw [h]
    simp
  · intro br h
    have hdev : ("dev/official/".data : Str) = 'd' :: "ev/official/".data := rfl
    rw [hdev] at h
    obtain ⟨u, hu⟩ := startsWith_cons h
    have h1 : (br == "main".data) = false := by
      rw [beq_eq_false_iff_ne]
      intro hc
      rw [hc] at hu
      have hm : ("main".data : Str) = 'm' :: "ain".data := rfl
      rw [hm] at hu
      injection hu with hh _
      exact absurd hh (by decide)
    have h2 : startsWith br "release-branch.".data = false := by
      cases hrb : startsWith br "release-branch.".data with
      | false => rfl
      | true =>
        have hrel : ("release-branch.".data : Str) = 'r' :: "elease-branch.".data := rfl
        rw [hrel] at hrb
        obtain ⟨w, hw⟩ := startsWith_cons hrb
        rw [hu] at hw
        injection hw with hh _
        exact absurd hh (by decide)
    unfold getDockerRepoTargetBranch
    rw [h1, h2, hdev, h]
    simp
  · intro br hm hrb hdev2
    unfold getDockerRepoTargetBranch
    have h1 : (br == "main".data) = false := beq_eq_false_iff_ne.mpr hm
    rw [h1, hrb, hdev2]
    simp

/-- C7: in every returned manifest the arches sequence is sorted by url
ascending in byte lexicographic order (no later entry has a url strictly below
an earlier entry), and entries with empty url come first. -/
theorem C7_arches_sorted (b : BuildResultsDirectoryInfo) (fs : FS) (dir : DirResult)
    (iter : List (Str × Arch) → List (Str × Arch)) (m : BuildAssets)
    (hres : createSummary b fs dir iter = .ret (some m) none) :
    m.arches.Pairwise (fun x y => lexLtB y.url x.url = false) ∧
    m.arches.Pairwise (fun x y => y.url = [] → x.url = []) := by
  obtain ⟨v, r, mp, hgv, hgr, hc, hm⟩ := (createSummary_ok_iff b fs dir iter m).mp hres
  subst hm
  constructor
  · exact (sortArches_sorted _).imp (fun h => urlLeB_eq_true_iff.mp h)
  · refine (sortArches_sorted _).imp ?_
    intro x y h hy
    have hf := urlLeB_eq_true_iff.mp h
    rw [hy] at hf
    exact lexLtB_nil_left hf

/-- C9: an empty artifactsDir path skips traversal entirely (the
directory-listing result is never consulted, even a failing one) and yields an
errorless manifest with an empty arch list and populated branch, buildID and
composed version. -/
theorem C9_empty_artifacts_dir (b : BuildResultsDirectoryInfo) (fs : FS) (dir : DirResult)
    (iter : List (Str × Arch) → List (Str × Arch)) (hiter : ∀ mp, (iter mp).Perm mp)
    (hempty : b.artifactsDir = []) (v r : Str)
    (hv : getVersion fs (versionPath b) "main".data = .ok v)
    (hr : getVersion fs (revisionPath b) "1".data = .ok r) :
    createSummary b fs dir iter =
      .ret (some ⟨b.branch, b.buildID, trimLeading v "go".data ++ '-' :: r, []⟩) none := by
  apply (createSummary_ok_iff b fs dir iter _).mpr
  refine ⟨v, r, [], hv, hr, ?_, ?_⟩
  · simp [collectArches, hempty]
  · have hnil : iter [] = [] := (hiter []).eq_nil
    rw [hnil]
    rfl

/-- C10: an existing but empty marker file resolves to the empty string, not
the caller-supplied default; the default applies exactly when the file does
not exist; hence an empty VERSION marker with an absent revision marker
composes the version -1. -/
theorem C10_empty_marker_version :
    (∀ (fs : FS) (p d : Str), fs p = .content [] → getVersion fs p d = .ok []) ∧
    (∀ (fs : FS) (p d : Str), fs p = .notExist → getVersion fs p d = .ok d) ∧
    (∀ (b : BuildResultsDirectoryInfo) (fs : FS) (dir : DirResult)
      (iter : List (Str × Arch) → List (Str × Arch)) (m : BuildAssets),
      fs (versionPath b) = .content [] → fs (revisionPath b) = .notExist →
      createSummary b fs dir iter = .ret (some m) none → m.version = "-1".data) := by
  refine ⟨?_, ?_, ?_⟩
  · intro fs p d h
    unfold getVersion
    rw [h]
    rfl
  · intro fs p d h
    unfold getVersion
    rw [h]
  · intro b fs dir iter m hv hr hres
    obtain ⟨v, r, mp, hgv, hgr, hc, hm⟩ := (createSummary_ok_iff b fs dir iter m).mp hres
    have hv2 : v = firstLine [] := by
      unfold getVersion at hgv
      rw [hv] at hgv
      simp at hgv
      exact hgv.symm
    have hr2 : r = "1".data := by
      unfold getVersion at hgr
      rw [hr] at hgr
      simp at hgr
      exact hgr.symm
    subst hv2
    subst hr2
    rw [hm]
    show trimLeading (firstLine []) "go".data ++ '-' :: "1".data = "-1".data
    decide

/-- C3 (amended): summarization over unchanged inputs is deterministic up to
the iteration order of the internal map: for any two permutation iteration
orders, the manifests agree on branch, buildID and version, their arches
sequences are permutations of one another, and they are identical whenever all
url values are pairwise distinct; when several entries share a url (for
example several checksum-only entries with empty url) the relative order of
the tied entries is not fixed. -/
theorem C3_determinism_up_to_url_ties (b : BuildResultsDirectoryInfo) (fs : FS)
    (dir : DirResult) (iter1 iter2 : List (Str × Arch) → List (Str × Arch))
    (h1 : ∀ mp, (iter1 mp).Perm mp) (h2 : ∀ mp, (iter2 mp).Perm mp)
    (m1 : BuildAssets) (hres : createSummary b fs dir iter1 = .ret (some m1) none) :
    ∃ m2, createSummary b fs dir iter2 = .ret (some m2) none ∧
      m2.branch = m1.branch ∧ m2.buildID = m1.buildID ∧ m2.version = m1.version ∧
      m2.arches.Perm m1.arches ∧
      (m1.arches.Pairwise (fun x y => x.url ≠ y.url) → m2 = m1) := by
  obtain ⟨v, r, mp, hgv, hgr, hc, hm⟩ := (createSummary_ok_iff b fs dir iter1 m1).mp hres
  have p1 : (sortArches ((iter1 mp).map Prod.snd)).Perm ((iter1 mp).map Prod.snd) :=
    sortArches_perm _
  have p2 : ((iter1 mp).map Prod.snd).Perm (mp.map Prod.snd) := (h1 mp).map Prod.snd
  have p3 : ((iter2 mp).map Prod.snd).Perm (mp.map Prod.snd) := (h2 mp).map Prod.snd
  have p4 : (sortArches ((iter2 mp).map Prod.snd)).Perm ((iter2 mp).map Prod.snd) :=
    sortArches_perm _
  have hperm : (sortArches ((iter1 mp).map Prod.snd)).Perm
      (sortArches ((iter2 mp).map Prod.snd)) :=
    p1.trans (p2.trans (p3.symm.trans p4.symm))
  refine ⟨⟨b.branch, b.buildID, trimLeading v "go".data ++ '-' :: r,
    sortArches ((iter2 mp).map Prod.snd)⟩, ?_, ?_, ?_, ?_, ?_, ?_⟩
  · exact (createSummary_ok_iff b fs dir iter2 _).mpr ⟨v, r, mp, hgv, hgr, hc, rfl⟩
  · rw [hm]
  · rw [hm]
  · rw [hm]
  · rw [hm]
    exact hperm.symm
  · intro hd
    rw [hm] at hd
    have heq : sortArches ((iter1 mp).map Prod.snd) = sortArches ((iter2 mp).map Prod.snd) :=
      sorted_distinct_unique _ _ hperm (sortArches_sorted _) (sortArches_sorted _) hd
    rw [hm, ← heq]

/-- C8 (amended): in every run that does not end in a panic, any hard error
(a marker file unreadable for a reason other than absence, an unlistable
artifacts directory, or an unreadable checksum file) makes summarization
return an error value with a nil manifest, and a manifest is returned exactly
when no hard error occurred. -/
theorem C8_hard_error_abort (b : BuildResultsDirectoryInfo) (fs : FS) (dir : DirResult)
    (iter : List (Str × Arch) → List (Str × Arch))
    (hnp : createSummary b fs dir iter ≠ .panicked) :
    ((∃ m, createSummary b fs dir iter = .ret (some m) none) ↔
      hardErrorB b fs dir = false) ∧
    (hardErrorB b fs dir = true → ∃ e, createSummary b fs dir iter = .ret none (some e)) := by
  have hiff : (∃ m, createSummary b fs dir iter = .ret (some m) none) ↔
      hardErrorB b fs dir = false := by
    cases hv : getVersion fs (versionPath b) "main".data with
    | error e =>
      have hio := getVersion_error_ioErr hv
      have hhe : hardErrorB b fs dir = true := by
        unfold hardErrorB
        rw [hio]
        simp [isIoErr]
      rw [hhe]
      constructor
      · rintro ⟨m, hm⟩
        obtain ⟨v2, r2, mp2, hgv2, hgr2, hc2, hm2⟩ :=
          (createSummary_ok_iff b fs dir iter m).mp hm
        rw [hv] at hgv2
        simp at hgv2
      · intro hcontra
        simp at hcontra
    | ok v =>
      have hio1 : isIoErr (fs (versionPath b)) = false := getVersion_ok_notIoErr hv
      cases hr : getVersion fs (revisionPath b) "1".data with
      | error e =>
        have hio := getVersion_error_ioErr hr
        have hhe : hardErrorB b fs dir = true := by
          unfold hardErrorB
          rw [hio]
          simp [isIoErr]
        rw [hhe]
        constructor
        · rintro ⟨m, hm⟩
          obtain ⟨v2, r2, mp2, hgv2, hgr2, hc2, hm2⟩ :=
            (createSummary_ok_iff b fs dir iter m).mp hm
          rw [hr] at hgr2
          simp at hgr2
        · intro hcontra
          simp at hcontra
      | ok r =>
        have hio2 : isIoErr (fs (revisionPath b)) = false := getVersion_ok_notIoErr hr
        by_cases hempty : b.artifactsDir = []
        · have hhe : hardErrorB b fs dir = false := by
            unfold hardErrorB
            rw [hio1, hio2, hempty]
            simp
          rw [hhe]
          constructor
          · intro _
            rfl
          · intro _
            exact ⟨⟨b.branch, b.buildID, trimLeading v "go".data ++ '-' :: r,
              sortArches ((iter []).map Prod.snd)⟩,
              (createSummary_ok_iff b fs dir iter _).mpr
                ⟨v, r, [], hv, hr, by simp [collectArches, hempty], rfl⟩⟩
        · have hne : b.artifactsDir.isEmpty = false := by
            cases hA : b.artifactsDir with
            | nil => exact absurd hA hempty
            | cons c t => rfl
          cases dir with
          | listErr =>
            have hcoll : collectArches b fs .listErr =
                .error (.hard (.dirUnreadable b.artifactsDir)) := by
              simp [collectArches, hempty]
            have hhe : hardErrorB b fs .listErr = true := by
              unfold hardErrorB
              rw [hio1, hio2, hne]
              simp
            rw [hhe]
            constructor
            · rintro ⟨m, hm⟩
              obtain ⟨v2, r2, mp2, hgv2, hgr2, hc2, hm2⟩ :=
                (createSummary_ok_iff b fs .listErr iter m).mp hm
              rw [hcoll] at hc2
              simp at hc2
            · intro hcontra
              simp at hcontra
          | entries es =>
            cases hps : processEntries b fs [] es with
            | ok mp =>
              have hany : es.any (badChecksumEntry b fs) = false := by
                cases ha : es.any (badChecksumEntry b fs) with
                | false => rfl
                | true =>
                  obtain ⟨x, hx, hbad⟩ := List.any_eq_true.mp ha
                  have hgood := processEntries_ok_not_bad hps x hx
                  rw [hgood] at hbad
                  simp at hbad
              have hhe : hardErrorB b fs (.entries es) = false := by
                unfold hardErrorB
                rw [hio1, hio2, hne]
                simp [hany]
              rw [hhe]
              constructor
              · intro _
                rfl
              · intro _
                exact ⟨⟨b.branch, b.buildID, trimLeading v "go".data ++ '-' :: r,
                  sortArches ((iter mp).map Prod.snd)⟩,
                  (createSummary_ok_iff b fs (.entries es) iter _).mpr
                    ⟨v, r, mp, hv, hr, by simp [collectArches, hempty, hps], rfl⟩⟩
            | error err =>
              cases err with
              | panicked =>
                exfalso
                apply hnp
                unfold createSummary
                simp only [hv, hr]
                simp [collectArches, hempty, hps]
              | hard e0 =>
                have hcoll : collectArches b fs (.entries es) = .error (.hard e0) := by
                  simp [collectArches, hempty, hps]
                have hany := processEntries_hard_bad hps
                have hhe : hardErrorB b fs (.entries es) = true := by
                  unfold hardErrorB
                  rw [hio1, hio2, hne]
                  simp [hany]
                rw [hhe]
                constructor
                · rintro ⟨m, hm⟩
                  obtain ⟨v2, r2, mp2, hgv2, hgr2, hc2, hm2⟩ :=
                    (createSummary_ok_iff b fs (.entries es) iter m).mp hm
                  rw [hcoll] at hc2
                  simp at hc2
                · intro hcontra
                  simp at hcontra
  constructor
  · exact hiff
  · intro hhe
    cases createSummary_shape b fs dir iter with
    | inl hp => exact absurd hp hnp
    | inr hsh =>
      cases hsh with
      | inl hok => exact hok
      | inr hok =>
        have hfe := hiff.mp hok
        rw [hfe] at hhe
        simp at hhe

/-- A filesystem with no files at all. -/
def fsAbsent : FS := fun _ => .notExist

/-- Build info with an empty artifacts directory path. -/
def bMeta : BuildResultsDirectoryInfo :=
  ⟨"src".data, [], "https://example".data, "main".data, "42".data⟩

/-- Build info pointing at the artifacts directory out. -/
def bOut : BuildResultsDirectoryInfo :=
  ⟨"src".data, "out".data, "https://example".data, "main".data, "42".data⟩

/-- A filesystem holding one checksum file with empty content. -/
def fsEmptyChecksum : FS :=
  fun p => if p = "out/go.tar.gz.sha256".data then .content [] else .notExist

/-- A filesystem holding two readable checksum files. -/
def fsTwoChecksums : FS := fun p =>
  if p = "out/a.sha256".data then .content "aaa".data
  else if p = "out/b.sha256".data then .content "bbb".data
  else .notExist

/-- Listing of the two checksum files. -/
def dirTwoChecksums : DirResult :=
  .entries [⟨"a.sha256".data, false⟩, ⟨"b.sha256".data, false⟩]

/-- A filesystem holding the checksum sibling of one archive. -/
def fsPair : FS := fun p =>
  if p = "out/go.1.21.0-3.linux-amd64.tar.gz.sha256".data then
    .content "abc123  go.tar.gz".data
  else .notExist

/-- A filesystem with both marker files populated. -/
def fsMarkers : FS := fun p =>
  if p = "src/VERSION".data then .content "go1.21.0".data
  else if p = "src/MICROSOFT_REVISION".data then .content "3".data
  else .notExist

/-- A filesystem with an empty VERSION marker and no revision marker. -/
def fsEmptyMarker : FS :=
  fun p => if p = "src/VERSION".data then .content [] else .notExist

/-- A filesystem whose VERSION marker read fails. -/
def fsVersionErr : FS :=
  fun p => if p = "src/VERSION".data then .ioErr else .notExist

/-- The manifest produced by the identity iteration order over the
two-checksum directory. -/
def m1TwoChecksums : BuildAssets :=
  ⟨"main".data, "42".data, "main-1".data,
    [⟨[], "aaa".data, ⟨[], []⟩⟩, ⟨[], "bbb".data, ⟨[], []⟩⟩]⟩

/-- C1: the code contradicts the claim: an artifacts directory holding a
checksum-suffixed file with empty content makes summarization panic (the
index-zero access on the empty token list of strings.Fields), with no hard
error present, instead of reporting an explicit error. -/
theorem C1_empty_checksum_panics :
    createSummary bOut fsEmptyChecksum (.entries [⟨"go.tar.gz.sha256".data, false⟩]) id =
      .panicked ∧
    hardErrorB bOut fsEmptyChecksum (.entries [⟨"go.tar.gz.sha256".data, false⟩]) = false := by
  decide

/-- C2: the code contradicts the claim: an archive filename whose os-arch
component has no dash makes summarization panic (the index-one access on the
single part of the dash split), and a component with more than two
dash-separated parts is silently misparsed into its first two parts instead of
being reported as an error. -/
theorem C2_malformed_archive_panics :
    createSummary bOut fsAbsent (.entries [⟨"go.1.2.linuxamd64.tar.gz".data, false⟩]) id =
      .panicked ∧
    createSummary bOut fsAbsent (.entries [⟨"a.b.linux-amd64-extra.tar.gz".data, false⟩]) id =
      .ret (some ⟨"main".data, "42".data, "main-1".data,
        [⟨"https://example/a.b.linux-amd64-extra.tar.gz".data, [],
          ⟨"linux".data, "amd64".data⟩⟩]⟩) none := by
  decide

/-- C3 counterexample: identity order and reversed order are both legitimate
iteration orders of the Go map over the same unchanged directory, yet they
produce different manifests: the two checksum-only entries share the empty
url, and the position of the tie depends on the iteration order. -/
theorem C3_counterexample :
    createSummary bOut fsTwoChecksums dirTwoChecksums id ≠
      createSummary bOut fsTwoChecksums dirTwoChecksums List.reverse := by
  decide

/-- Witness for the amended C3 at the two-checksum directory. -/
theorem C3_witness :
    ∃ m2, createSummary bOut fsTwoChecksums dirTwoChecksums List.reverse =
        .ret (some m2) none ∧
      m2.branch = m1TwoChecksums.branch ∧ m2.buildID = m1TwoChecksums.buildID ∧
      m2.version = m1TwoChecksums.version ∧ m2.arches.Perm m1TwoChecksums.arches ∧
      (m1TwoChecksums.arches.Pairwise (fun x y => x.url ≠ y.url) → m2 = m1TwoChecksums) :=
  C3_determinism_up_to_url_ties bOut fsTwoChecksums dirTwoChecksums id List.reverse
    (fun mp => List.Perm.refl mp) (fun mp => List.reverse_perm mp) m1TwoChecksums (by decide)

/-- Witness for C4 at the balanced archive and checksum pair from the spec. -/
theorem C4_witness :
    trimSuffix ("go.1.21.0-3.linux-amd64.tar.gz".data ++ checksumSuffix) checksumSuffix =
      "go.1.21.0-3.linux-amd64.tar.gz".data ∧
    processEntries bOut fsPair []
      [⟨"go.1.21.0-3.linux-amd64.tar.gz".data, false⟩,
       ⟨"go.1.21.0-3.linux-amd64.tar.gz".data ++ checksumSuffix, false⟩] =
      .ok [("go.1.21.0-3.linux-amd64.tar.gz".data,
        ⟨bOut.destinationURL ++ '/' :: "go.1.21.0-3.linux-amd64.tar.gz".data,
         "abc123".data, ⟨"linux".data, "amd64".data⟩⟩)] ∧
    processEntries bOut fsPair []
      [⟨"go.1.21.0-3.linux-amd64.tar.gz".data ++ checksumSuffix, false⟩,
       ⟨"go.1.21.0-3.linux-amd64.tar.gz".data, false⟩] =
      .ok [("go.1.21.0-3.linux-amd64.tar.gz".data,
        ⟨bOut.destinationURL ++ '/' :: "go.1.21.0-3.linux-amd64.tar.gz".data,
         "abc123".data, ⟨"linux".data, "amd64".data⟩⟩)] :=
  C4_identity_key_merge bOut fsPair "go.1.21.0-3.linux-amd64.tar.gz".data
    "abc123  go.tar.gz".data "abc123".data "linux".data "amd64".data ".tar.gz".data
    ["go.tar.gz".data] [] (by decide) (by decide) (by decide) (by decide) (by decide)

/-- Witness for C5 at concrete marker contents. -/
theorem C5_witness :
    (⟨"main".data, "42".data, "main-1".data, []⟩ : BuildAssets).version = "main-1".data ∧
    (⟨"main".data, "42".data, "1.21.0-3".data, []⟩ : BuildAssets).version = "1.21.0-3".data :=
  ⟨C5_version_resolution.1 bMeta fsAbsent (.entries []) id
      ⟨"main".data, "42".data, "main-1".data, []⟩ (by decide) (by decide) (by decide),
   C5_version_resolution.2 bMeta fsMarkers (.entries []) id
      ⟨"main".data, "42".data, "1.21.0-3".data, []⟩ (by decide) (by decide) (by decide)⟩

/-- Witness for C6 at the four example branches from the spec. -/
theorem C6_witness :
    getDockerRepoTargetBranch "main".data = "microsoft/main".data ∧
    getDockerRepoTargetBranch "release-branch.1.20".data = "microsoft/main".data ∧
    getDockerRepoTargetBranch "dev/official/foo".data = "dev/official/foo".data ∧
    getDockerRepoTargetBranch "feature/x".data = [] :=
  ⟨C6_branch_mapper.1,
   C6_branch_mapper.2.1 "release-branch.1.20".data (by decide),
   C6_branch_mapper.2.2.1 "dev/official/foo".data (by decide),
   C6_branch_mapper.2.2.2 "feature/x".data (by decide) (by decide) (by decide)⟩

/-- Witness for C7 at the two-checksum directory. -/
theorem C7_witness :
    m1TwoChecksums.arches.Pairwise (fun x y => lexLtB y.url x.url = false) ∧
    m1TwoChecksums.arches.Pairwise (fun x y => y.url = [] → x.url = []) :=
  C7_arches_sorted bOut fsTwoChecksums dirTwoChecksums id m1TwoChecksums (by decide)

/-- C8 counterexample: with all reads succeeding (no hard error), a malformed
archive filename still prevents any manifest from being returned, because the
run panics; so a manifest is not returned exactly when no hard error
occurred. -/
theorem C8_counterexample :
    hardErrorB bOut fsAbsent (.entries [⟨"go.1.2.linuxamd64.tar.gz".data, false⟩]) = false ∧
    createSummary bOut fsAbsent (.entries [⟨"go.1.2.linuxamd64.tar.gz".data, false⟩]) id =
      .panicked := by
  decide

/-- Witness for the amended C8 at a failing VERSION marker. -/
theorem C8_witness :
    ((∃ m, createSummary bMeta fsVersionErr (.entries []) id = .ret (some m) none) ↔
      hardErrorB bMeta fsVersionErr (.entries []) = false) ∧
    (hardErrorB bMeta fsVersionErr (.entries []) = true →
      ∃ e, createSummary bMeta fsVersionErr (.entries []) id = .ret none (some e)) :=
  C8_hard_error_abort bMeta fsVersionErr (.entries []) id (by decide)

/-- Witness for C9: the empty artifacts path yields the metadata-only
manifest even when the directory listing would fail. -/
theorem C9_witness :
    createSummary bMeta fsAbsent .listErr id =
      .ret (some ⟨bMeta.branch, bMeta.buildID, "main-1".data, []⟩) none :=
  C9_empty_artifacts_dir bMeta fsAbsent .listErr id (fun mp => List.Perm.refl mp) rfl
    "main".data "1".data rfl rfl

/-- Witness for C10: an empty VERSION marker resolves to the empty string, an
absent marker resolves to the default, and the composed version is -1. -/
theorem C10_witness :
    getVersion fsEmptyMarker "src/VERSION".data "main".data = .ok [] ∧
    getVersion fsAbsent "src/VERSION".data "main".data = .ok "main".data ∧
    (⟨"main".data, "42".data, "-1".data, []⟩ : BuildAssets).version = "-1".data :=
  ⟨C10_empty_marker_version.1 fsEmptyMarker "src/VERSION".data "main".data (by decide),
   C10_empty_marker_version.2.1 fsAbsent "src/VERSION".data "main".data (by decide),
   C10_empty_marker_version.2.2 bMeta fsEmptyMarker (.entries []) id
     ⟨"main".data, "42".data, "-1".data, []⟩ (by decide) (by decide) (by decide)⟩

end GoInfra
